import Mathlib

/-!
Verification of the market-data orchestration engine ("the Brain",
src/src/marketdata_providers/brain.py) against its natural-language
specification.

The embedding models Python dicts as insertion-ordered association lists
(`List (String × β)`): lookup finds the first (unique) binding, assignment
updates in place keeping the position, or appends a fresh key at the end,
and `del` removes the binding.  `Decimal`/`float` values and datetimes are
modelled as rationals (`ℚ`); `datetime` differences in seconds become plain
subtraction.  Fallible Python code is modelled with `Option`/`Except`.
-/

namespace MarketData

/-- Python `d[k]` / `k in d` on an insertion-ordered dict: the first binding
for `k`, if any. -/
def lookupA {β : Type} : List (String × β) → String → Option β
  | [], _ => none
  | (k', v) :: rest, k => if k' = k then some v else lookupA rest k

/-- Python `d[k] = v`: replace the existing binding in place (keeping its
position), otherwise append the new binding at the end. -/
def insertA {β : Type} : List (String × β) → String → β → List (String × β)
  | [], k, v => [(k, v)]
  | (k', v') :: rest, k, v =>
      if k' = k then (k, v) :: rest else (k', v') :: insertA rest k v

/-- Python `del d[k]`: remove the (first) binding for `k`. -/
def eraseA {β : Type} : List (String × β) → String → List (String × β)
  | [], _ => []
  | (k', v') :: rest, k => if k' = k then rest else (k', v') :: eraseA rest k

/-- brain.py 68-75 (`ProviderResult`): outcome of one adapter invocation. -/
structure ProviderResult (α : Type) where
  data : Option α
  provider : String
  success : Bool
  error : Option String
  timestamp : ℚ
deriving DecidableEq, Repr

/-- brain.py 78-88 (`AggregatedResult`): outcome of merging the per-provider
results, with full provenance and a derived coverage percentage. -/
structure AggregatedResult (α : Type) where
  data : Option α
  providers_used : List String
  success : Bool
  error : Option String
  provider_results : List (String × ProviderResult α)
  timestamp : ℚ
  coverage_percentage : ℚ
deriving DecidableEq, Repr

/-- brain.py 90-96 (`AggregatedResult._calculate_coverage`): 0 for an empty
(falsy) provider map, else (successful-and-non-null / total) * 100. -/
def calcCoverage {α : Type} (rs : List (String × ProviderResult α)) : ℚ :=
  if rs.isEmpty then 0
  else
    let successful := (rs.filter (fun pr => pr.2.success && pr.2.data.isSome)).length
    let total := rs.length
    if 0 < total then (successful : ℚ) / (total : ℚ) * 100 else 0

/-- brain.py 80-88 (`AggregatedResult.__init__`): construct the record and
compute `coverage_percentage` from the provenance map at construction time. -/
def AggregatedResult.make {α : Type} (data : Option α) (providers_used : List String)
    (success : Bool) (error : Option String)
    (provider_results : List (String × ProviderResult α)) (now : ℚ) :
    AggregatedResult α :=
  { data := data
    providers_used := providers_used
    success := success
    error := error
    provider_results := provider_results
    timestamp := now
    coverage_percentage := calcCoverage provider_results }

/-- brain.py 137-147 (`MarketDataBrain._is_provider_rate_limited`): if a record
exists and is more than 3600 seconds old, delete it and report false; if it
exists and is not yet that old, report true; otherwise report false.  Returns
the flag together with the updated map. -/
def isProviderRateLimited (m : List (String × ℚ)) (p : String) (now : ℚ) :
    Bool × List (String × ℚ) :=
  match lookupA m p with
  | some t => if now - t > 3600 then (false, eraseA m p) else (true, m)
  | none => (false, m)

/-- brain.py 149-152 (`MarketDataBrain._mark_provider_rate_limited`):
unconditionally (re)write the record with the current time. -/
def markProviderRateLimited (m : List (String × ℚ)) (p : String) (now : ℚ) :
    List (String × ℚ) :=
  insertA m p now

/-- Modelled from the spec: the `StockQuote` data container (base.py is not in
the snapshot).  Fields are exactly those the quote aggregation strategy
(brain.py 366-394) reads or writes: price and the secondary numeric fields are
optional decimals, volume fields optional integers, plus a timestamp. -/
structure StockQuote where
  symbol : String
  price : Option ℚ
  volume : Option ℤ
  timestamp : ℚ
  market_cap : Option ℚ
  pe_ratio : Option ℚ
  week_52_high : Option ℚ
  week_52_low : Option ℚ
  avg_volume : Option ℤ
  day_high : Option ℚ
  day_low : Option ℚ
deriving DecidableEq, Repr, Inhabited

/-- Python truthiness of an optional decimal: `None` and `0` are falsy. -/
def truthyQ : Option ℚ → Bool
  | none => false
  | some x => decide (x ≠ 0)

/-- Python truthiness of an optional integer: `None` and `0` are falsy. -/
def truthyZ : Option ℤ → Bool
  | none => false
  | some x => decide (x ≠ 0)

/-- brain.py 374 (`prices = [q.price for q in quotes if q.price]`). -/
def pricesOf (quotes : List StockQuote) : List ℚ :=
  quotes.filterMap fun q =>
    match q.price with
    | some x => if x = 0 then none else some x
    | none => none

/-- brain.py 375 (`volumes = [q.volume for q in quotes if q.volume]`). -/
def volumesOf (quotes : List StockQuote) : List ℤ :=
  quotes.filterMap fun q =>
    match q.volume with
    | some x => if x = 0 then none else some x
    | none => none

/-- `statistics.median`: middle element of the sorted values for an odd count,
mean of the two middle elements for an even count. -/
def pyMedian (l : List ℚ) : ℚ :=
  let s := List.insertionSort (· ≤ ·) l
  let n := s.length
  if n % 2 = 1 then s.getD (n / 2) 0
  else (s.getD (n / 2 - 1) 0 + s.getD (n / 2) 0) / 2

/-- Python `max` over a nonempty integer list. -/
def pyMaxZ : List ℤ → ℤ
  | [] => 0
  | x :: xs => xs.foldl max x

/-- `max(q.timestamp for q in quotes)` (0 for the empty list, on which the
Python `max` would raise). -/
def maxTs : List StockQuote → ℚ
  | [] => 0
  | [q] => q.timestamp
  | q :: q' :: qs => max q.timestamp (maxTs (q' :: qs))

/-- Index of the quote `max(quotes, key=lambda q: q.timestamp)` returns: the
Python `max` keeps the first element attaining the maximum key. -/
def argmaxTs (l : List StockQuote) : Nat :=
  l.findIdx fun q => decide (q.timestamp = maxTs l)

/-- brain.py 389-392: the in-place field-filling step of `_aggregate_quotes`,
one `other` quote at a time — each of the seven secondary fields of the
primary is overwritten only when it is falsy and the other quote's is truthy. -/
def fillFrom (p q : StockQuote) : StockQuote :=
  { p with
    market_cap := if !truthyQ p.market_cap && truthyQ q.market_cap then q.market_cap else p.market_cap
    pe_ratio := if !truthyQ p.pe_ratio && truthyQ q.pe_ratio then q.pe_ratio else p.pe_ratio
    week_52_high := if !truthyQ p.week_52_high && truthyQ q.week_52_high then q.week_52_high else p.week_52_high
    week_52_low := if !truthyQ p.week_52_low && truthyQ q.week_52_low then q.week_52_low else p.week_52_low
    avg_volume := if !truthyZ p.avg_volume && truthyZ q.avg_volume then q.avg_volume else p.avg_volume
    day_high := if !truthyQ p.day_high && truthyQ q.day_high then q.day_high else p.day_high
    day_low := if !truthyQ p.day_low && truthyQ q.day_low then q.day_low else p.day_low }

/-- brain.py 366-394 (`MarketDataBrain._aggregate_quotes`) over the
insertion-ordered successful results (provider, quote).  The primary is the
first quote with the most recent timestamp; its price becomes the median of
all truthy prices when there are at least two, its volume the maximum of all
truthy volumes when there are at least two, and its remaining secondary fields
are filled left-to-right from the other quotes.  The second component is the
post-call view of the input entries: Python mutates the primary object in
place, so the entry the primary came from now aliases the merged quote. -/
def aggregateQuotes (rs : List (String × StockQuote)) :
    StockQuote × List (String × StockQuote) :=
  let quotes := rs.map Prod.snd
  let i := argmaxTs quotes
  let primary := quotes.getD i default
  let prices := pricesOf quotes
  let volumes := volumesOf quotes
  let p1 := if 1 < prices.length then { primary with price := some (pyMedian prices) } else primary
  let p2 := if 1 < volumes.length then { p1 with volume := some (pyMaxZ volumes) } else p1
  let merged := (quotes.eraseIdx i).foldl fillFrom p2
  (merged, rs.set i ((rs.getD i ("", default)).1, merged))

/-- The mutable state of a `MarketDataBrain` (brain.py 115-121) that the
fetch path reads and writes: the result cache, the rate-limit records, and
the caching configuration consumed at construction. -/
structure BrainState (α : Type) where
  cache : List (String × AggregatedResult α)
  rate_limited_providers : List (String × ℚ)
  enable_caching : Bool
  cache_ttl : ℚ

/-- brain.py 187-193 (`MarketDataBrain._is_cache_valid`): false when caching
is globally disabled, else the entry's age must be strictly below the TTL. -/
def isCacheValid {α : Type} (st : BrainState α) (result : AggregatedResult α) (now : ℚ) : Bool :=
  if !st.enable_caching then false
  else decide (now - result.timestamp < st.cache_ttl)

/-- brain.py 263-268: the cache consultation at the top of
`_fetch_from_all_providers` — the stored entry is returned only when present
and still valid; a stale entry is ignored (and not removed). -/
def cacheLookup {α : Type} (st : BrainState α) (key : String) (now : ℚ) :
    Option (AggregatedResult α) :=
  match lookupA st.cache key with
  | some cached => if isCacheValid st cached now then some cached else none
  | none => none

/-- An aggregation strategy over the insertion-ordered successful results.
`.ok` carries the merged payload together with the post-merge view of those
results: the Python strategies may mutate the shared payload objects in
place, and the stored `ProviderResult`s alias them.  `.error` models an
exception escaping the strategy. -/
def AggStrategy (α : Type) : Type :=
  List (String × ProviderResult α) → Except String (α × List (String × ProviderResult α))

/-- brain.py 362-364 (`MarketDataBrain._default_aggregation`): the data of the
first successful result, untouched (`next(iter(...))` raises on an empty
dict, modelled as `.error`). -/
def defaultAggregation {α : Type} : AggStrategy α :=
  fun successful =>
    match successful with
    | [] => .error "StopIteration"
    | first :: _ =>
        match first.2.data with
        | some d => .ok (d, successful)
        | none => .error "no data"

/-- brain.py 366-394 as an `AggStrategy`: run `_aggregate_quotes` on the
payloads and reflect the in-place mutation of the primary quote back into the
stored results. -/
def quoteAggStrategy : AggStrategy StockQuote :=
  fun successful =>
    let rs := successful.filterMap fun pr => pr.2.data.map fun q => (pr.1, q)
    let out := aggregateQuotes rs
    .ok (out.1, successful.map fun pr => (pr.1, { pr.2 with data := lookupA out.2 pr.1 }))

/-- brain.py 319-322: a provider result counts as successful when its success
flag is set and its data is non-null. -/
def usable {α : Type} (pr : ProviderResult α) : Bool :=
  pr.success && pr.data.isSome

/-- brain.py 270-358: the body of `_fetch_from_all_providers` after the cache
consultation.  `available` is the eligible provider list (line 271-272) and
`outcomes p` the `ProviderResult` that `_try_provider` produced for provider
`p` (`_try_provider` never raises, brain.py 215-243).  Returns the
`AggregatedResult`, the new state, and the list of providers whose adapters
were invoked. -/
def fetchCore {α : Type} (st : BrainState α) (now : ℚ) (key : String)
    (available : List String) (outcomes : String → ProviderResult α)
    (agg : AggStrategy α) :
    AggregatedResult α × BrainState α × List String :=
  if available.isEmpty then
    (AggregatedResult.make none [] false (some "No providers available") [] now, st, [])
  else
    let processed := available.map fun p => (p, outcomes p)
    let successful := processed.filter fun pr => usable pr.2
    match successful with
    | [] =>
        (AggregatedResult.make none [] false (some "All providers failed to return data")
          processed now, st, available)
    | first :: _ =>
        let step :=
          match agg successful with
          | .ok (d, upd) => (some d, upd)
          | .error _ => (first.2.data, successful)
        let processedFinal := processed.map fun pr =>
          match lookupA step.2 pr.1 with
          | some r => (pr.1, r)
          | none => pr
        let providers_used := successful.map Prod.fst
        let result := AggregatedResult.make step.1 providers_used true none processedFinal now
        let newCache := if st.enable_caching then insertA st.cache key result else st.cache
        (result, { st with cache := newCache }, available)

/-- brain.py 245-358 (`MarketDataBrain._fetch_from_all_providers`): consult
the cache first (`key` is the cache key the method derives on line 263), then
fan out to every available provider and aggregate. -/
def fetchFromAllProviders {α : Type} (st : BrainState α) (now : ℚ) (key : String)
    (available : List String) (outcomes : String → ProviderResult α)
    (agg : AggStrategy α) :
    AggregatedResult α × BrainState α × List String :=
  match cacheLookup st key now with
  | some cached => (cached, st, [])
  | none => fetchCore st now key available outcomes agg

/-! ### Cache key derivation (brain.py 182-185)

Python strings are modelled as `List Char`.  `sorted(kwargs.items())` sorts
the (key, rendered-value) pairs lexicographically — by key and, on equal
keys, by value, exactly the Python tuple order (kwargs keys are unique, so
the value component never decides in practice). -/

/-- Lexicographic comparison of character lists (Python string `<=`). -/
def lexLe : List Char → List Char → Bool
  | [], _ => true
  | _ :: _, [] => false
  | a :: as, b :: bs => if a < b then true else if b < a then false else lexLe as bs

/-- Python tuple comparison on (key, value) pairs of strings. -/
def pairLe (x y : List Char × List Char) : Bool :=
  if x.1 = y.1 then lexLe x.2 y.2 else lexLe x.1 y.1

/-- `pairLe` as a decidable relation for sorting. -/
def pairLeR (x y : List Char × List Char) : Prop := pairLe x y = true

instance : DecidableRel pairLeR := fun x y => by unfold pairLeR; infer_instance

/-- `sorted(kwargs.items())`. -/
def sortParams (ps : List (List Char × List Char)) : List (List Char × List Char) :=
  List.insertionSort pairLeR ps

/-- The fragment `f"{k}={v}"`. -/
def renderPair (kv : List Char × List Char) : List Char := kv.1 ++ '=' :: kv.2

/-- `"_".join(fragments)`. -/
def joinUnderscore : List (List Char) → List Char
  | [] => []
  | [x] => x
  | x :: y :: xs => x ++ '_' :: joinUnderscore (y :: xs)

/-- brain.py 182-185 (`MarketDataBrain._get_cache_key`):
`f"{data_type}_{params}"` with `params` the underscore-join of the sorted
`key=value` fragments. -/
def getCacheKey (dataType : List Char) (params : List (List Char × List Char)) : List Char :=
  dataType ++ '_' :: joinUnderscore ((sortParams params).map renderPair)

/-- Modelled from the spec: the per-provider configuration record (config.py
is not in the snapshot) — "per-provider enabled flag, credential".  The brain
reads exactly `config.enabled` and `config.api_key`. -/
structure ProviderConfig where
  enabled : Bool
  api_key : Option String
deriving DecidableEq, Repr

/-- brain.py 996: the fixed provider-name list `get_provider_status` iterates. -/
def providerStatusNames : List String :=
  ["alpha_vantage", "finnhub", "polygon", "twelve_data", "fmp", "tiingo", "api_ninjas", "fiscal"]

/-- brain.py 993-999 (`MarketDataBrain.get_provider_status`): for each fixed
provider name, report `config.enabled and config.api_key is not None`.  The
brain's rate-limit map is in scope on `self` but the method never reads it,
which the unused second argument makes explicit. -/
def getProviderStatus (config : String → ProviderConfig)
    (_rate_limited_providers : List (String × ℚ)) : List (String × Bool) :=
  providerStatusNames.map fun n => (n, (config n).enabled && (config n).api_key.isSome)

/-- The result-shape invariant of every `AggregatedResult` a fetch returns:
success exactly when some provider contributed, and no payload on failure. -/
def ResultInvariant {α : Type} (r : AggregatedResult α) : Prop :=
  (r.success = true ↔ r.providers_used ≠ []) ∧ (r.success = false → r.data = none)

/-! ### Concrete inputs used by the witnesses and counterexamples -/

/-- A quote with only symbol, price and timestamp populated. -/
def mkQuote (sym : String) (price : Option ℚ) (ts : ℚ) : StockQuote :=
  { symbol := sym, price := price, volume := none, timestamp := ts, market_cap := none
    pe_ratio := none, week_52_high := none, week_52_low := none, avg_volume := none
    day_high := none, day_low := none }

def w1QuoteA : StockQuote := mkQuote "AAPL" (some 100) 1

def w1QuoteB : StockQuote := mkQuote "AAPL" (some 102) 3

def w1QuoteC : StockQuote := mkQuote "AAPL" (some 1000) 2

def w3Result : AggregatedResult Unit :=
  { data := some (), providers_used := ["fmp"], success := true, error := none
    provider_results := [], timestamp := 0, coverage_percentage := 0 }

def w3St : BrainState Unit :=
  { cache := [("quote_symbol=AAPL", w3Result)], rate_limited_providers := []
    enable_caching := true, cache_ttl := 300 }

def w3Outcomes : String → ProviderResult Unit := fun p =>
  { data := none, provider := p, success := false, error := some "boom", timestamp := 0 }

def w5St : BrainState Unit :=
  { cache := [], rate_limited_providers := [], enable_caching := true, cache_ttl := 300 }

def w6Outcomes : String → ProviderResult Unit := fun p =>
  { data := some (), provider := p, success := true, error := none, timestamp := 0 }

/-- A strategy that always raises. -/
def w6Agg : AggStrategy Unit := fun _ => .error "boom"

def c8QuoteB : StockQuote := mkQuote "AAPL" (some 100) 1

def c8QuoteC : StockQuote := mkQuote "AAPL" (some 104) 3

def c8QuoteE : StockQuote := mkQuote "AAPL" (some 90) 2

/-- Adapter outcomes for the C8 failing input: three providers answer with
prices 100, 104 and 90; the most recent quote is provider c's. -/
def c8Outcomes : String → ProviderResult StockQuote := fun p =>
  if p = "b" then { data := some c8QuoteB, provider := "b", success := true, error := none, timestamp := 1 }
  else if p = "c" then { data := some c8QuoteC, provider := "c", success := true, error := none, timestamp := 3 }
  else { data := some c8QuoteE, provider := "e", success := true, error := none, timestamp := 2 }

def c8St : BrainState StockQuote :=
  { cache := [], rate_limited_providers := [], enable_caching := false, cache_ttl := 300 }

/-- A configuration in which every provider is enabled with a credential. -/
def c9Config : String → ProviderConfig := fun _ => { enabled := true, api_key := some "key" }

/-! ### Helper lemmas -/

theorem lookupA_insertA {β : Type} (m : List (String × β)) (k k' : String) (v : β) :
    lookupA (insertA m k v) k' = if k = k' then some v else lookupA m k' := by
  induction m with
  | nil => simp [insertA, lookupA]
  | cons hd tl ih =>
      obtain ⟨k₀, v₀⟩ := hd
      by_cases h₀ : k₀ = k
      · subst h₀
        simp only [insertA, if_pos rfl, lookupA]
        by_cases h₁ : k₀ = k' <;> simp [h₁]
      · by_cases h₁ : k₀ = k'
        · subst h₁
          have hk : ¬k = k₀ := fun h => h₀ h.symm
          simp [insertA, lookupA, h₀, hk]
        · simp [insertA, lookupA, h₀, h₁, ih]

theorem lookupA_insertA_self {β : Type} (m : List (String × β)) (k : String) (v : β) :
    lookupA (insertA m k v) k = some v := by
  simp [lookupA_insertA]

theorem lookupA_markProviderRateLimited_self (m : List (String × ℚ)) (p : String) (t : ℚ) :
    lookupA (markProviderRateLimited m p t) p = some t :=
  lookupA_insertA_self m p t

theorem lexLe_total (a b : List Char) : lexLe a b = true ∨ lexLe b a = true := by
  induction a generalizing b with
  | nil => left; rfl
  | cons x xs ih =>
      cases b with
      | nil => right; rfl
      | cons y ys =>
          rcases lt_trichotomy x y with h | h | h
          · left; simp [lexLe, h]
          · subst h
            rcases ih ys with h' | h' <;> [left; right] <;> simp [lexLe, lt_irrefl, h']
          · right; simp [lexLe, h]

theorem lexLe_trans {a b c : List Char} (hab : lexLe a b = true) (hbc : lexLe b c = true) :
    lexLe a c = true := by
  induction a generalizing b c with
  | nil => rfl
  | cons x xs ih =>
      cases b with
      | nil => simp [lexLe] at hab
      | cons y ys =>
          cases c with
          | nil => simp [lexLe] at hbc
          | cons z zs =>
              by_cases hxy : x < y
              · by_cases hyz : y < z
                · simp [lexLe, lt_trans hxy hyz]
                · by_cases hzy : z < y
                  · simp [lexLe, hyz, hzy] at hbc
                  · have : y = z := le_antisymm (not_lt.mp hzy) (not_lt.mp hyz)
                    subst this
                    simp [lexLe, hxy]
              · by_cases hyx : y < x
                · simp [lexLe, hxy, hyx] at hab
                · have : x = y := le_antisymm (not_lt.mp hyx) (not_lt.mp hxy)
                  subst this
                  simp only [lexLe, if_neg hxy, if_neg hyx] at hab
                  by_cases hyz : x < z
                  · simp [lexLe, hyz]
                  · by_cases hzy : z < x
                    · simp [lexLe, hyz, hzy] at hbc
                    · have : x = z := le_antisymm (not_lt.mp hzy) (not_lt.mp hyz)
                      subst this
                      simp only [lexLe, if_neg hyz, if_neg hzy] at hbc ⊢
                      exact ih hab hbc

theorem lexLe_antisymm {a b : List Char} (hab : lexLe a b = true) (hba : lexLe b a = true) :
    a = b := by
  induction a generalizing b with
  | nil =>
      cases b with
      | nil => rfl
      | cons y ys => simp [lexLe] at hba
  | cons x xs ih =>
      cases b with
      | nil => simp [lexLe] at hab
      | cons y ys =>
          by_cases hxy : x < y
          · simp [lexLe, hxy, lt_asymm hxy] at hba
          · by_cases hyx : y < x
            · simp [lexLe, hxy, hyx] at hab
            · have hx : x = y := le_antisymm (not_lt.mp hyx) (not_lt.mp hxy)
              subst hx
              simp only [lexLe, if_neg hxy, if_neg hyx] at hab hba
              rw [ih hab hba]

theorem pairLe_total (x y : List Char × List Char) : pairLeR x y ∨ pairLeR y x := by
  unfold pairLeR pairLe
  by_cases h : x.1 = y.1
  · simp [h]
    exact lexLe_total x.2 y.2
  · have h' : ¬y.1 = x.1 := fun he => h he.symm
    simp [h, h']
    exact lexLe_total x.1 y.1

theorem pairLe_trans {x y z : List Char × List Char} (hxy : pairLeR x y) (hyz : pairLeR y z) :
    pairLeR x z := by
  unfold pairLeR pairLe at hxy hyz ⊢
  by_cases h1 : x.1 = y.1
  · by_cases h2 : y.1 = z.1
    · simp only [if_pos h1] at hxy
      simp only [if_pos h2] at hyz
      simp only [if_pos (h1.trans h2)]
      exact lexLe_trans hxy hyz
    · simp only [if_pos h1] at hxy
      simp only [if_neg h2] at hyz
      have h3 : ¬x.1 = z.1 := fun he => h2 (h1.symm.trans he)
      simp only [if_neg h3]
      rw [h1]; exact hyz
  · by_cases h2 : y.1 = z.1
    · simp only [if_neg h1] at hxy
      have h3 : ¬x.1 = z.1 := fun he => h1 (he.trans h2.symm)
      simp only [if_neg h3]
      rw [← h2]; exact hxy
    · simp only [if_neg h1] at hxy
      simp only [if_neg h2] at hyz
      by_cases h3 : x.1 = z.1
      · have hyx : lexLe y.1 x.1 = true := by rw [h3]; exact hyz
        exact absurd (lexLe_antisymm hxy hyx) h1
      · simp only [if_neg h3]
        exact lexLe_trans hxy hyz

theorem pairLe_antisymm {x y : List Char × List Char} (hxy : pairLeR x y) (hyx : pairLeR y x) :
    x = y := by
  unfold pairLeR pairLe at hxy hyx
  by_cases h : x.1 = y.1
  · simp only [if_pos h] at hxy
    simp only [if_pos h.symm] at hyx
    exact Prod.ext h (lexLe_antisymm hxy hyx)
  · simp only [if_neg h] at hxy
    simp only [if_neg (fun he : y.1 = x.1 => h he.symm)] at hyx
    exact absurd (lexLe_antisymm hxy hyx) h

instance : IsTotal (List Char × List Char) pairLeR := ⟨pairLe_total⟩

instance : IsTrans (List Char × List Char) pairLeR := ⟨fun _ _ _ => pairLe_trans⟩

instance : IsAntisymm (List Char × List Char) pairLeR := ⟨fun _ _ => pairLe_antisymm⟩

theorem cacheLookup_eq_some {α : Type} {st : BrainState α} {key : String} {now : ℚ}
    {r : AggregatedResult α} (h : cacheLookup st key now = some r) :
    lookupA st.cache key = some r := by
  unfold cacheLookup at h
  split at h
  next cached heq =>
    split at h
    · injection h with h2
      rw [heq, h2]
    · exact absurd h (by simp)
  next heq => exact absurd h (by simp)

theorem maxTs_mem : ∀ (l : List StockQuote), l ≠ [] → ∃ q ∈ l, q.timestamp = maxTs l
  | [], h => absurd rfl h
  | [q], _ => ⟨q, List.mem_singleton.mpr rfl, rfl⟩
  | q :: q' :: qs, _ => by
      rcases max_choice q.timestamp (maxTs (q' :: qs)) with h | h
      · exact ⟨q, List.mem_cons_self q _, by rw [maxTs, h]⟩
      · obtain ⟨w, hw, hts⟩ := maxTs_mem (q' :: qs) (List.cons_ne_nil q' qs)
        exact ⟨w, List.mem_cons_of_mem q hw, by rw [maxTs, h, hts]⟩

theorem findIdx_getD {α : Type} {p : α → Bool} (d : α) :
    ∀ (l : List α), (∃ x ∈ l, p x = true) → p (l.getD (l.findIdx p) d) = true
  | [], h => by simp at h
  | x :: xs, h => by
      by_cases hx : p x
      · simp [List.findIdx_cons, hx]
      · have hxs : ∃ y ∈ xs, p y = true := by
          rcases h with ⟨y, hy, hpy⟩
          rcases List.mem_cons.mp hy with rfl | hy'
          · exact absurd hpy (by simpa using hx)
          · exact ⟨y, hy', hpy⟩
        have ih := findIdx_getD d xs hxs
        simpa [List.findIdx_cons, hx, List.getD_cons_succ] using ih

theorem fillFrom_price (p q : StockQuote) : (fillFrom p q).price = p.price := rfl

theorem fillFrom_timestamp (p q : StockQuote) : (fillFrom p q).timestamp = p.timestamp := rfl

theorem foldl_fillFrom_price :
    ∀ (l : List StockQuote) (p : StockQuote), (l.foldl fillFrom p).price = p.price
  | [], _ => rfl
  | q :: qs, p => by
      rw [List.foldl_cons, foldl_fillFrom_price qs (fillFrom p q), fillFrom_price]

theorem foldl_fillFrom_timestamp :
    ∀ (l : List StockQuote) (p : StockQuote), (l.foldl fillFrom p).timestamp = p.timestamp
  | [], _ => rfl
  | q :: qs, p => by
      rw [List.foldl_cons, foldl_fillFrom_timestamp qs (fillFrom p q), fillFrom_timestamp]

theorem ite_volume_price (c : Prop) [Decidable c] (p : StockQuote) (v : Option ℤ) :
    (if c then { p with volume := v } else p).price = p.price := by
  split <;> rfl

theorem ite_volume_timestamp (c : Prop) [Decidable c] (p : StockQuote) (v : Option ℤ) :
    (if c then { p with volume := v } else p).timestamp = p.timestamp := by
  split <;> rfl

theorem ite_price_timestamp (c : Prop) [Decidable c] (p : StockQuote) (v : Option ℚ) :
    (if c then { p with price := v } else p).timestamp = p.timestamp := by
  split <;> rfl

/-! ### Claim theorems -/

/-- C2: at construction, `coverage_percentage` of an `AggregatedResult` is 0
when `provider_results` is empty, and otherwise exactly (S / T) * 100 where T
is the number of provider entries and S the number of entries that are both
successful and carry non-null data. -/
theorem coverage_percentage_spec {α : Type} (data : Option α) (providers_used : List String)
    (success : Bool) (error : Option String) (rs : List (String × ProviderResult α)) (now : ℚ) :
    (AggregatedResult.make data providers_used success error rs now).coverage_percentage =
      if rs.length = 0 then 0
      else (((rs.filter fun pr => pr.2.success && pr.2.data.isSome).length : ℚ) / (rs.length : ℚ)) * 100 := by
  show calcCoverage rs = _
  unfold calcCoverage
  by_cases h : rs.isEmpty
  · rw [if_pos h, if_pos (by simpa [List.isEmpty_iff_length_eq_zero] using h)]
  · have hlen : rs.length ≠ 0 := by
      simpa [List.isEmpty_iff_length_eq_zero] using h
    rw [if_neg h, if_neg hlen]
    simp [Nat.pos_of_ne_zero hlen]

/-- C4 counterexample: at exactly 3600 seconds after the mark, the elapsed
time is not strictly below the one-hour window, yet the check still reports
the provider as rate limited (the code only expires records strictly older
than 3600 seconds). -/
theorem rate_limit_boundary_counterexample :
    (isProviderRateLimited (markProviderRateLimited [] "polygon" 0) "polygon" 3600).1 = true
    ∧ ¬((3600 : ℚ) - 0 < 3600) := by
  constructor
  · norm_num [isProviderRateLimited, markProviderRateLimited, insertA, lookupA]
  · norm_num

/-- C4 (amended): after `mark_rate_limited(p)` at time `tm`, the check at
time `now` reports true exactly when at most 3600 seconds have elapsed; once
strictly more than 3600 seconds have elapsed the record is deleted and the
check reports false; a provider with no record reports false with the map
unchanged. -/
theorem rate_limit_cooldown (m : List (String × ℚ)) (p : String) (tm now : ℚ) :
    ((isProviderRateLimited (markProviderRateLimited m p tm) p now).1 = true ↔ now - tm ≤ 3600)
    ∧ (3600 < now - tm →
        isProviderRateLimited (markProviderRateLimited m p tm) p now
          = (false, eraseA (markProviderRateLimited m p tm) p))
    ∧ (lookupA m p = none → isProviderRateLimited m p now = (false, m)) := by
  have hl := lookupA_markProviderRateLimited_self m p tm
  refine ⟨?_, ?_, ?_⟩
  · simp only [isProviderRateLimited, hl]
    split_ifs with h
    · exact iff_of_false (by simp) (not_le.mpr h)
    · exact iff_of_true rfl (not_lt.mp h)
  · intro h
    simp only [isProviderRateLimited, hl]
    rw [if_pos h]
  · intro h
    simp only [isProviderRateLimited, h]

/-- Witness for C4: the theorem applied at a mark at time 0 — at 1000 seconds
the provider is still reported rate limited, at 5000 seconds the record is
deleted and the check reports false. -/
theorem rate_limit_cooldown_witness :
    (isProviderRateLimited (markProviderRateLimited [] "fmp" 0) "fmp" 1000).1 = true
    ∧ isProviderRateLimited (markProviderRateLimited [] "fmp" 0) "fmp" 5000
        = (false, eraseA (markProviderRateLimited [] "fmp" 0) "fmp") := by
  constructor
  · exact (rate_limit_cooldown [] "fmp" 0 1000).1.mpr (by norm_num)
  · exact (rate_limit_cooldown [] "fmp" 0 5000).2.1 (by norm_num)

/-- C9 counterexample: with every provider enabled and credentialed, marking
"polygon" rate limited (the cooldown being active, as the first conjunct
shows) leaves the output of `get_provider_status` completely unchanged — the
reported status does not reflect the rate-limit flag. -/
theorem provider_status_ignores_rate_limit :
    (isProviderRateLimited (markProviderRateLimited [] "polygon" 0) "polygon" 10).1 = true
    ∧ getProviderStatus c9Config (markProviderRateLimited [] "polygon" 0)
        = getProviderStatus c9Config []
    ∧ lookupA (getProviderStatus c9Config (markProviderRateLimited [] "polygon" 0)) "polygon"
        = some true := by
  refine ⟨?_, rfl, by decide⟩
  norm_num [isProviderRateLimited, markProviderRateLimited, insertA, lookupA]

/-- C9 (amended): `get_provider_status` reports, for each configured provider
name, exactly whether it is enabled with an API key present; marking any
provider rate limited never changes the reported statuses. -/
theorem provider_status_spec (config : String → ProviderConfig)
    (m : List (String × ℚ)) (p : String) (t : ℚ) :
    getProviderStatus config (markProviderRateLimited m p t) = getProviderStatus config m
    ∧ ∀ n b, (n, b) ∈ getProviderStatus config m →
        b = ((config n).enabled && (config n).api_key.isSome) := by
  refine ⟨rfl, ?_⟩
  intro n b hmem
  unfold getProviderStatus at hmem
  rcases List.mem_map.mp hmem with ⟨n', _, h⟩
  injection h with h1 h2
  subst h1
  exact h2.symm

/-- Witness for C9 (amended): the theorem applied at the all-enabled
configuration, a mark on "fmp", and the reported entry for "polygon". -/
theorem provider_status_spec_witness :
    getProviderStatus c9Config (markProviderRateLimited [] "fmp" 7) = getProviderStatus c9Config []
    ∧ true = ((c9Config "polygon").enabled && (c9Config "polygon").api_key.isSome) := by
  have h := provider_status_spec c9Config [] "fmp" 7
  exact ⟨h.1, h.2 "polygon" true (by decide)⟩

/-- C1: whenever at least two of the quotes carry a truthy price, the merged
quote's price is the median of all reported prices, and the merged quote is
built from the payload with the most recent timestamp (its timestamp is the
maximum over all quotes). -/
theorem aggregate_quotes_median (rs : List (String × StockQuote))
    (hne : rs ≠ []) (hp : 1 < (pricesOf (rs.map Prod.snd)).length) :
    (aggregateQuotes rs).1.price = some (pyMedian (pricesOf (rs.map Prod.snd)))
    ∧ (aggregateQuotes rs).1.timestamp = maxTs (rs.map Prod.snd) := by
  have hq : rs.map Prod.snd ≠ [] := fun h => hne (by simpa using h)
  have hprim :
      ((rs.map Prod.snd).getD (argmaxTs (rs.map Prod.snd)) default).timestamp
        = maxTs (rs.map Prod.snd) := by
    obtain ⟨q, hqm, hts⟩ := maxTs_mem (rs.map Prod.snd) hq
    exact of_decide_eq_true
      (findIdx_getD (p := fun q => decide (q.timestamp = maxTs (rs.map Prod.snd))) default
        (rs.map Prod.snd) ⟨q, hqm, decide_eq_true hts⟩)
  refine ⟨?_, ?_⟩
  · simp only [aggregateQuotes]
    rw [foldl_fillFrom_price, ite_volume_price, if_pos hp]
  · simp only [aggregateQuotes]
    rw [foldl_fillFrom_timestamp, ite_volume_timestamp, ite_price_timestamp]
    exact hprim

/-- Witness for C1: three providers report prices 100, 102 and 1000 (one
outlier); the merged price is the median 102 and the merged timestamp is the
most recent one. -/
theorem aggregate_quotes_median_witness :
    (aggregateQuotes [("a", w1QuoteA), ("b", w1QuoteB), ("c", w1QuoteC)]).1.price = some 102
    ∧ (aggregateQuotes [("a", w1QuoteA), ("b", w1QuoteB), ("c", w1QuoteC)]).1.timestamp = 3 := by
  have h := aggregate_quotes_median [("a", w1QuoteA), ("b", w1QuoteB), ("c", w1QuoteC)]
    (by decide) (by decide)
  refine ⟨?_, ?_⟩
  · rw [h.1]; decide
  · rw [h.2]; decide

/-- C8: evaluating the quote fetch at the failing input — provider c's
adapter returned price 104, but the payload stored for c in the returned
result's provider_results carries price 100 (the median): the merge mutated
the stored primary payload in place rather than a private working copy. -/
theorem quote_merge_mutates_stored_payload :
    (c8Outcomes "c").data.bind StockQuote.price = some 104
    ∧ ((lookupA (fetchFromAllProviders c8St 5 "quote_symbol=AAPL" ["b", "c", "e"]
          c8Outcomes quoteAggStrategy).1.provider_results "c").bind
        (fun pr => pr.data.bind StockQuote.price)) = some 100 := by
  exact ⟨by decide, by decide⟩

/-- C3: given a stored cache entry for a key, the lookup returns it exactly
when caching is globally enabled and the entry's age is strictly below the
TTL; a hit makes the fetch return the cached result unchanged with untouched
state and zero provider invocations; on a miss the entry is left in the map
and the full provider fan-out runs. -/
theorem cache_lookup_spec {α : Type} (st : BrainState α) (key : String) (now : ℚ)
    (available : List String) (outcomes : String → ProviderResult α) (agg : AggStrategy α)
    (r : AggregatedResult α) (hmem : lookupA st.cache key = some r) :
    (cacheLookup st key now = some r
      ↔ (st.enable_caching = true ∧ now - r.timestamp < st.cache_ttl))
    ∧ (cacheLookup st key now = some r →
        fetchFromAllProviders st now key available outcomes agg = (r, st, []))
    ∧ (cacheLookup st key now = none →
        (lookupA (fetchFromAllProviders st now key available outcomes agg).2.1.cache key).isSome
          = true)
    ∧ (cacheLookup st key now = none → available ≠ [] →
        (fetchFromAllProviders st now key available outcomes agg).2.2 = available) := by
  refine ⟨?_, ?_, ?_, ?_⟩
  · simp only [cacheLookup, hmem]
    unfold isCacheValid
    by_cases he : st.enable_caching
    · by_cases hc : now - r.timestamp < st.cache_ttl
      · simp [he, hc]
      · simp [he, hc]
    · simp [he]
  · intro h
    simp only [fetchFromAllProviders, h]
  · intro h
    simp only [fetchFromAllProviders, h]
    unfold fetchCore
    by_cases ha : available.isEmpty = true
    · simp [ha, hmem]
    · rw [if_neg ha]
      rcases hfs : (available.map fun p => (p, outcomes p)).filter (fun pr => usable pr.2)
        with _ | ⟨first, rest⟩
      · simp [hfs, hmem]
      · simp only [hfs]
        by_cases hen : st.enable_caching = true
        · simp [hen, lookupA_insertA_self]
        · simp only [hen, if_false, Bool.false_eq_true]
          simp [hmem]
  · intro h hne
    simp only [fetchFromAllProviders, h]
    unfold fetchCore
    have ha : ¬(available.isEmpty = true) := fun hh => hne (List.isEmpty_iff.mp hh)
    rw [if_neg ha]
    rcases hfs : (available.map fun p => (p, outcomes p)).filter (fun pr => usable pr.2)
      with _ | ⟨first, rest⟩
    · simp [hfs]
    · simp [hfs]

/-- Witness for C3: a fresh entry under a 300-second TTL is returned
unchanged, with unchanged state and no provider invoked. -/
theorem cache_lookup_spec_witness :
    fetchFromAllProviders w3St 10 "quote_symbol=AAPL" ["fmp"] w3Outcomes defaultAggregation
      = (w3Result, w3St, []) := by
  have h := cache_lookup_spec w3St "quote_symbol=AAPL" 10 ["fmp"] w3Outcomes
    defaultAggregation w3Result (by decide)
  exact h.2.1 (h.1.mpr ⟨rfl, by norm_num [w3St, w3Result]⟩)

/-- C5: on a cache miss with a non-empty provider set where every provider
fails or returns null data, the fetch returns success=false, data=None,
providers_used=[], the error "All providers failed to return data", exactly
one failed provenance entry per attempted provider, and an unchanged state. -/
theorem all_providers_fail_spec {α : Type} (st : BrainState α) (now : ℚ) (key : String)
    (available : List String) (outcomes : String → ProviderResult α) (agg : AggStrategy α)
    (hmiss : cacheLookup st key now = none) (hne : available ≠ [])
    (hfail : ∀ p ∈ available, usable (outcomes p) = false) :
    (fetchFromAllProviders st now key available outcomes agg).1.success = false
    ∧ (fetchFromAllProviders st now key available outcomes agg).1.data = none
    ∧ (fetchFromAllProviders st now key available outcomes agg).1.providers_used = []
    ∧ (fetchFromAllProviders st now key available outcomes agg).1.error
        = some "All providers failed to return data"
    ∧ (fetchFromAllProviders st now key available outcomes agg).1.provider_results
        = available.map (fun p => (p, outcomes p))
    ∧ (fetchFromAllProviders st now key available outcomes agg).2.1 = st
    ∧ (fetchFromAllProviders st now key available outcomes agg).2.2 = available := by
  have hfe : (available.map (fun p => (p, outcomes p))).filter (fun pr => usable pr.2) = [] := by
    rw [List.filter_eq_nil_iff]
    intro pr hpr
    rcases List.mem_map.mp hpr with ⟨p, hp, rfl⟩
    simp [hfail p hp]
  have ha : ¬(available.isEmpty = true) := fun hh => hne (List.isEmpty_iff.mp hh)
  simp only [fetchFromAllProviders, hmiss]
  unfold fetchCore
  rw [if_neg ha]
  simp [hfe, AggregatedResult.make]

/-- Witness for C5: two providers, both failing, with an empty cache. -/
theorem all_providers_fail_spec_witness :
    (fetchFromAllProviders w5St 0 "quote_symbol=AAPL" ["a", "b"] w3Outcomes defaultAggregation).1.success = false
    ∧ (fetchFromAllProviders w5St 0 "quote_symbol=AAPL" ["a", "b"] w3Outcomes defaultAggregation).1.data = none
    ∧ (fetchFromAllProviders w5St 0 "quote_symbol=AAPL" ["a", "b"] w3Outcomes defaultAggregation).1.providers_used = []
    ∧ (fetchFromAllProviders w5St 0 "quote_symbol=AAPL" ["a", "b"] w3Outcomes defaultAggregation).1.error
        = some "All providers failed to return data"
    ∧ (fetchFromAllProviders w5St 0 "quote_symbol=AAPL" ["a", "b"] w3Outcomes defaultAggregation).1.provider_results
        = ["a", "b"].map (fun p => (p, w3Outcomes p))
    ∧ (fetchFromAllProviders w5St 0 "quote_symbol=AAPL" ["a", "b"] w3Outcomes defaultAggregation).2.1 = w5St
    ∧ (fetchFromAllProviders w5St 0 "quote_symbol=AAPL" ["a", "b"] w3Outcomes defaultAggregation).2.2 = ["a", "b"] :=
  all_providers_fail_spec w5St 0 "quote_symbol=AAPL" ["a", "b"] w3Outcomes defaultAggregation
    (by decide) (by decide) (by decide)

/-- C6: on a cache miss with at least one successful provider, an exception
inside the aggregation strategy is caught by the orchestrator: the fetch
still returns success=true, its data is the first successful provider's
payload unmodified, and no error is surfaced. -/
theorem aggregation_error_fallback {α : Type} (st : BrainState α) (now : ℚ) (key : String)
    (available : List String) (outcomes : String → ProviderResult α) (agg : AggStrategy α)
    (first : String × ProviderResult α) (rest : List (String × ProviderResult α)) (msg : String)
    (hmiss : cacheLookup st key now = none)
    (hsucc : (available.map (fun p => (p, outcomes p))).filter (fun pr => usable pr.2)
        = first :: rest)
    (herr : agg (first :: rest) = .error msg) :
    (fetchFromAllProviders st now key available outcomes agg).1.success = true
    ∧ (fetchFromAllProviders st now key available outcomes agg).1.data = first.2.data
    ∧ (fetchFromAllProviders st now key available outcomes agg).1.error = none := by
  have ha : ¬(available.isEmpty = true) := by
    intro hh
    rw [List.isEmpty_iff.mp hh] at hsucc
    simp at hsucc
  simp only [fetchFromAllProviders, hmiss]
  unfold fetchCore
  rw [if_neg ha]
  simp only [hsucc, herr]
  exact ⟨rfl, rfl, rfl⟩

/-- Witness for C6: two successful providers and a strategy that throws — the
result is successful, carries provider a's payload, and surfaces no error. -/
theorem aggregation_error_fallback_witness :
    (fetchFromAllProviders w5St 0 "quote_symbol=AAPL" ["a", "b"] w6Outcomes w6Agg).1.success = true
    ∧ (fetchFromAllProviders w5St 0 "quote_symbol=AAPL" ["a", "b"] w6Outcomes w6Agg).1.data
        = ("a", w6Outcomes "a").2.data
    ∧ (fetchFromAllProviders w5St 0 "quote_symbol=AAPL" ["a", "b"] w6Outcomes w6Agg).1.error = none :=
  aggregation_error_fallback w5St 0 "quote_symbol=AAPL" ["a", "b"] w6Outcomes w6Agg
    ("a", w6Outcomes "a") [("b", w6Outcomes "b")] "boom" (by decide) (by decide) rfl

/-- C10: every result the fetch returns satisfies the invariant — success
exactly when providers_used is non-empty, and no data on failure — and,
provided every prior cache entry satisfied it, so does every entry of the
resulting cache. -/
theorem fetch_result_invariant {α : Type} (st : BrainState α) (now : ℚ) (key : String)
    (available : List String) (outcomes : String → ProviderResult α) (agg : AggStrategy α)
    (hcache : ∀ k r, lookupA st.cache k = some r → ResultInvariant r) :
    ResultInvariant (fetchFromAllProviders st now key available outcomes agg).1
    ∧ (∀ k r,
        lookupA (fetchFromAllProviders st now key available outcomes agg).2.1.cache k = some r →
          ResultInvariant r) := by
  unfold fetchFromAllProviders
  cases hcl : cacheLookup st key now with
  | some cached => exact ⟨hcache key cached (cacheLookup_eq_some hcl), hcache⟩
  | none =>
      unfold fetchCore
      by_cases ha : available.isEmpty = true
      · rw [if_pos ha]
        exact ⟨⟨by simp [AggregatedResult.make], fun _ => rfl⟩, hcache⟩
      · rw [if_neg ha]
        rcases hfs : (available.map fun p => (p, outcomes p)).filter (fun pr => usable pr.2)
          with _ | ⟨first, rest⟩
        · simp only [hfs]
          exact ⟨⟨by simp [AggregatedResult.make], fun _ => rfl⟩, hcache⟩
        · simp only [hfs]
          constructor
          · exact ⟨iff_of_true rfl (List.cons_ne_nil _ _),
              fun hff => absurd hff (by simp [AggregatedResult.make])⟩
          · intro k r hk
            by_cases hen : st.enable_caching = true
            · simp only [hen, if_true] at hk
              rw [lookupA_insertA] at hk
              by_cases hkey : key = k
              · rw [if_pos hkey] at hk
                injection hk with hk2
                rw [← hk2]
                exact ⟨iff_of_true rfl (List.cons_ne_nil _ _),
                  fun hff => absurd hff (by simp [AggregatedResult.make])⟩
              · rw [if_neg hkey] at hk
                exact hcache k r hk
            · simp only [hen, if_false] at hk
              exact hcache k r hk

/-- Witness for C10: the invariant holds on the all-fail fetch from an empty
cache. -/
theorem fetch_result_invariant_witness :
    ResultInvariant
      (fetchFromAllProviders w5St 0 "quote_symbol=AAPL" ["a", "b"] w3Outcomes defaultAggregation).1 := by
  have h := fetch_result_invariant w5St 0 "quote_symbol=AAPL" ["a", "b"] w3Outcomes
    defaultAggregation (by intro k r hk; simp [w5St, lookupA] at hk)
  exact h.1

theorem append_cons_sep_inj (sep : Char) :
    ∀ (a b x y : List Char), sep ∉ a → sep ∉ b →
      a ++ sep :: x = b ++ sep :: y → a = b ∧ x = y
  | [], [], x, y, _, _, h => ⟨rfl, by simpa using h⟩
  | [], c :: bs, x, y, _, hb, h => by
      simp only [List.nil_append, List.cons_append, List.cons.injEq] at h
      exact absurd (by rw [h.1]; exact List.mem_cons_self c _) hb
  | c :: as, [], x, y, ha, _, h => by
      simp only [List.cons_append, List.nil_append, List.cons.injEq] at h
      exact absurd (by rw [← h.1]; exact List.mem_cons_self c _) ha
  | c :: as, d :: bs, x, y, ha, hb, h => by
      simp only [List.cons_append, List.cons.injEq] at h
      obtain ⟨rfl, h2⟩ := h
      obtain ⟨h3, h4⟩ := append_cons_sep_inj sep as bs x y
        (fun hm => ha (List.mem_cons_of_mem c hm))
        (fun hm => hb (List.mem_cons_of_mem c hm)) h2
      exact ⟨by rw [h3], h4⟩

theorem joinUnderscore_inj :
    ∀ (fs gs : List (List Char)),
      (∀ f ∈ fs, f ≠ [] ∧ ('_' : Char) ∉ f) → (∀ g ∈ gs, g ≠ [] ∧ ('_' : Char) ∉ g) →
      joinUnderscore fs = joinUnderscore gs → fs = gs
  | [], [], _, _, _ => rfl
  | [], [g], _, hg, h => by
      exact absurd (by simpa [joinUnderscore] using h.symm)
        ((hg g (List.mem_singleton.mpr rfl)).1)
  | [], g :: g' :: gs, _, _, h => by
      simp [joinUnderscore] at h
  | [f], [], hf, _, h => by
      exact absurd (by simpa [joinUnderscore] using h)
        ((hf f (List.mem_singleton.mpr rfl)).1)
  | f :: f' :: fs, [], _, _, h => by
      simp [joinUnderscore] at h
  | [f], [g], _, _, h => by
      simp only [joinUnderscore] at h
      rw [h]
  | [f], g :: g' :: gs, hf, _, h => by
      simp only [joinUnderscore] at h
      have hmem : ('_' : Char) ∈ g ++ '_' :: joinUnderscore (g' :: gs) :=
        List.mem_append_right g (List.mem_cons_self _ _)
      rw [← h] at hmem
      exact absurd hmem ((hf f (List.mem_singleton.mpr rfl)).2)
  | f :: f' :: fs, [g], _, hg, h => by
      simp only [joinUnderscore] at h
      have hmem : ('_' : Char) ∈ f ++ '_' :: joinUnderscore (f' :: fs) :=
        List.mem_append_right f (List.mem_cons_self _ _)
      rw [h] at hmem
      exact absurd hmem ((hg g (List.mem_singleton.mpr rfl)).2)
  | f :: f' :: fs, g :: g' :: gs, hf, hg, h => by
      simp only [joinUnderscore] at h
      obtain ⟨h1, h2⟩ := append_cons_sep_inj '_' f g _ _
        ((hf f (List.mem_cons_self _ _)).2) ((hg g (List.mem_cons_self _ _)).2) h
      have hrest := joinUnderscore_inj (f' :: fs) (g' :: gs)
        (fun x hx => hf x (List.mem_cons_of_mem f hx))
        (fun x hx => hg x (List.mem_cons_of_mem g hx)) h2
      rw [h1, hrest]

theorem renderPair_ne_nil (kv : List Char × List Char) : renderPair kv ≠ [] := by
  unfold renderPair
  intro h
  exact absurd (List.append_eq_nil.mp h).2 (List.cons_ne_nil _ _)

theorem renderPair_not_mem_underscore (kv : List Char × List Char)
    (hk : ('_' : Char) ∉ kv.1) (hv : ('_' : Char) ∉ kv.2) : ('_' : Char) ∉ renderPair kv := by
  unfold renderPair
  intro h
  rcases List.mem_append.mp h with h1 | h1
  · exact hk h1
  · rcases List.mem_cons.mp h1 with h2 | h2
    · exact absurd h2 (by decide)
    · exact hv h2

theorem map_renderPair_inj :
    ∀ (ps qs : List (List Char × List Char)),
      (∀ kv ∈ ps, ('=' : Char) ∉ kv.1) → (∀ kv ∈ qs, ('=' : Char) ∉ kv.1) →
      ps.map renderPair = qs.map renderPair → ps = qs
  | [], [], _, _, _ => rfl
  | [], _ :: _, _, _, h => by simp at h
  | _ :: _, [], _, _, h => by simp at h
  | p :: ps, q :: qs, hp, hq, h => by
      simp only [List.map_cons, List.cons.injEq] at h
      obtain ⟨h1, h2⟩ := h
      unfold renderPair at h1
      obtain ⟨hk, hv⟩ := append_cons_sep_inj '=' p.1 q.1 p.2 q.2
        (hp p (List.mem_cons_self _ _)) (hq q (List.mem_cons_self _ _)) h1
      have hrest := map_renderPair_inj ps qs
        (fun kv hkv => hp kv (List.mem_cons_of_mem p hkv))
        (fun kv hkv => hq kv (List.mem_cons_of_mem q hkv)) h2
      rw [Prod.ext hk hv, hrest]

theorem sortParams_perm (ps : List (List Char × List Char)) : (sortParams ps).Perm ps :=
  List.perm_insertionSort pairLeR ps

theorem sortParams_eq_of_perm {ps qs : List (List Char × List Char)} (h : ps.Perm qs) :
    sortParams ps = sortParams qs :=
  List.eq_of_perm_of_sorted
    ((sortParams_perm ps).trans (h.trans (sortParams_perm qs).symm))
    (List.sorted_insertionSort pairLeR ps) (List.sorted_insertionSort pairLeR qs)

/-- C7 (amended): the cache key is order-insensitive unconditionally — for
every operation name and every two parameter lists that are permutations of
each other, the keys agree.  Injectivity holds only under a proviso scoped to
that conjunct alone: when the operation name, parameter names and rendered
values contain no underscore and parameter names contain no equals sign,
equal keys force the same operation name and the same parameter multiset.
(Without the proviso distinct requests can collide, see the
counterexample.) -/
theorem cache_key_spec (op1 op2 : List Char) (ps1 ps2 : List (List Char × List Char)) :
    (ps1.Perm ps2 → getCacheKey op1 ps1 = getCacheKey op1 ps2)
    ∧ (('_' : Char) ∉ op1 → ('_' : Char) ∉ op2 →
        (∀ kv ∈ ps1, ('_' : Char) ∉ kv.1 ∧ ('=' : Char) ∉ kv.1 ∧ ('_' : Char) ∉ kv.2) →
        (∀ kv ∈ ps2, ('_' : Char) ∉ kv.1 ∧ ('=' : Char) ∉ kv.1 ∧ ('_' : Char) ∉ kv.2) →
        getCacheKey op1 ps1 = getCacheKey op2 ps2 → op1 = op2 ∧ ps1.Perm ps2) := by
  constructor
  · intro hperm
    unfold getCacheKey
    rw [sortParams_eq_of_perm hperm]
  · intro hop1 hop2 h1 h2 heq
    unfold getCacheKey at heq
    obtain ⟨hop, hjoin⟩ := append_cons_sep_inj '_' op1 op2 _ _ hop1 hop2 heq
    have hfr1 : ∀ f ∈ (sortParams ps1).map renderPair, f ≠ [] ∧ ('_' : Char) ∉ f := by
      intro f hf
      rcases List.mem_map.mp hf with ⟨kv, hkv, rfl⟩
      have hkv' := h1 kv ((sortParams_perm ps1).mem_iff.mp hkv)
      exact ⟨renderPair_ne_nil kv, renderPair_not_mem_underscore kv hkv'.1 hkv'.2.2⟩
    have hfr2 : ∀ f ∈ (sortParams ps2).map renderPair, f ≠ [] ∧ ('_' : Char) ∉ f := by
      intro f hf
      rcases List.mem_map.mp hf with ⟨kv, hkv, rfl⟩
      have hkv' := h2 kv ((sortParams_perm ps2).mem_iff.mp hkv)
      exact ⟨renderPair_ne_nil kv, renderPair_not_mem_underscore kv hkv'.1 hkv'.2.2⟩
    have hmaps := joinUnderscore_inj _ _ hfr1 hfr2 hjoin
    have hsorted := map_renderPair_inj (sortParams ps1) (sortParams ps2)
      (fun kv hkv => (h1 kv ((sortParams_perm ps1).mem_iff.mp hkv)).2.1)
      (fun kv hkv => (h2 kv ((sortParams_perm ps2).mem_iff.mp hkv)).2.1) hmaps
    have hp : ps1.Perm (sortParams ps2) := hsorted ▸ (sortParams_perm ps1).symm
    exact ⟨hop, hp.trans (sortParams_perm ps2)⟩

/-- C7 counterexample: the requests (operation "historical", parameter map
{end: "6_start=5"}) and (operation "historical", parameter map
{end: "6", start: "5"}) have different parameter maps — the first binds one
name, the second two — yet both produce the cache key
"historical_end=6_start=5": the key function is not injective even though the
string value "6_start=5" has an injective rendering. -/
theorem cache_key_collision :
    getCacheKey ("historical".toList) [("end".toList, "6_start=5".toList)]
      = getCacheKey ("historical".toList)
          [("end".toList, "6".toList), ("start".toList, "5".toList)]
    ∧ [("end".toList, "6_start=5".toList)]
        ≠ [("end".toList, "6".toList), ("start".toList, "5".toList)] := by
  exact ⟨by decide, by decide⟩

/-- Witness for C7 (amended): order-insensitivity applies to the program's
real inputs — operation "options_chain" with parameters
{start_date: 2024-01-02, end_date: 2024-02-02} passed in either order yields
the same key, underscores and all; and the injectivity conjunct, with its
proviso discharged at the separator-free request ("quote", {symbol: AAPL})
compared with itself, recovers the operation name and parameter multiset. -/
theorem cache_key_spec_witness :
    getCacheKey ("options_chain".toList)
        [("start_date".toList, "2024-01-02".toList), ("end_date".toList, "2024-02-02".toList)]
      = getCacheKey ("options_chain".toList)
        [("end_date".toList, "2024-02-02".toList), ("start_date".toList, "2024-01-02".toList)]
    ∧ ("quote".toList = "quote".toList
        ∧ List.Perm [("symbol".toList, "AAPL".toList)] [("symbol".toList, "AAPL".toList)]) := by
  constructor
  · exact (cache_key_spec ("options_chain".toList) ("options_chain".toList)
      [("start_date".toList, "2024-01-02".toList), ("end_date".toList, "2024-02-02".toList)]
      [("end_date".toList, "2024-02-02".toList), ("start_date".toList, "2024-01-02".toList)]).1
      (List.Perm.swap _ _ _)
  · exact (cache_key_spec ("quote".toList) ("quote".toList)
      [("symbol".toList, "AAPL".toList)] [("symbol".toList, "AAPL".toList)]).2
      (by decide) (by decide) (by decide) (by decide) rfl

end MarketData
